import Mathlib

/-!
Verification of the clinical-consultation capture application's audio core.

This file gives a shallow embedding, over `ℚ`, `ℤ` and `ℕ`, of the
signal-processing and transport components of the repository:

* `DeepgramProvider.downsampleBuffer` (block-averaging resampler),
* `DeepgramProvider.convertFloat32ToInt16` (PCM 16-bit encoder, shared
  verbatim with `AssemblyAIProvider.convertFloat32ToInt16`),
* the VAD / pre-roll handler installed in `DeepgramProvider.startListening`,
* `DeepgramProvider.attemptReconnect` and the `onopen` / `onclose` wiring,
* `DeepgramProvider.handleMessage` (and the AssemblyAI analogue),
* `VoiceAnalyzer` (feature history, profile distances, speaker-change
  classification, reset).

JavaScript numbers are modelled as rationals; `Int16Array` element storage is
modelled by explicit truncation and wrap-around on `ℤ`.  Theorems about each
claim follow the definitions.
-/

/-- Model of JavaScript `Math.round`: round half toward positive infinity,
`Math.round x = ⌊x + 1/2⌋`. -/
def jsRound (q : ℚ) : ℤ := ⌊q + 1/2⌋

/-- Model of the JavaScript number-to-integer conversion used when a value is
stored into an integer-typed array: truncation toward zero. -/
def jsTrunc (q : ℚ) : ℤ := if q < 0 then -⌊-q⌋ else ⌊q⌋

/-- Model of storing an integer into an `Int16Array` slot: reduce modulo
`2^16` and reinterpret as a signed 16-bit value. -/
def toInt16 (z : ℤ) : ℤ := (z + 32768) % 65536 - 32768

/-- One sample of `convertFloat32ToInt16` (`DeepgramProvider.ts` lines
364-372, identical code in the AssemblyAI provider): clamp the sample to
`[-1, 1]`, scale by `0x8000` for negative and `0x7fff` for non-negative
values, and store the product into an `Int16Array` slot (truncation toward
zero, then 16-bit wrap). -/
def encodeSample (x : ℚ) : ℤ :=
  let s := max (-1) (min 1 x)
  toInt16 (jsTrunc (if s < 0 then s * 32768 else s * 32767))

/-- Model of `convertFloat32ToInt16`: elementwise `encodeSample`. -/
def convertFloat32ToInt16 (buffer : List ℚ) : List ℤ :=
  buffer.map encodeSample

/-- Little-endian byte serialization of one signed 16-bit value, as laid out
in the `Int16Array.buffer` that the provider sends over the socket. -/
def int16ToBytesLE (z : ℤ) : List ℤ :=
  [((z + 32768) % 65536) % 256, ((z + 32768) % 65536) / 256]

/-- Little-endian byte buffer backing an `Int16Array`. -/
def pcmBytesLE : List ℤ → List ℤ
  | [] => []
  | z :: rest => int16ToBytesLE z ++ pcmBytesLE rest

/-- Written from the spec's words, for comparison with `encodeSample`: clamp
`s` to `[-1, 1]`, then `round(s * 32767)` for `s ≥ 0` and `round(s * 32768)`
for `s < 0`. -/
def specRoundSample (x : ℚ) : ℤ :=
  let s := max (-1) (min 1 x)
  if 0 ≤ s then jsRound (s * 32767) else jsRound (s * 32768)

/-- Spec-side PCM encoder: elementwise `specRoundSample`. -/
def specRoundEncode (buffer : List ℚ) : List ℤ :=
  buffer.map specRoundSample

/-- Written from the spec's words: the inverse of the PCM sample mapping,
`n / 32767` for `n ≥ 0` and `n / 32768` for `n < 0`, used to state the
round-trip bound. -/
def decodeInt16 (z : ℤ) : ℚ :=
  if z < 0 then (z : ℚ) / 32768 else (z : ℚ) / 32767

/-- Inner loop of `downsampleBuffer` (`DeepgramProvider.ts` lines 346-356).
`sr` is the sample-rate quotient `srcRate / dstRate` (source variable name
ends in a reserved suffix, hence the abbreviation).  Each iteration averages
the input block `[offsetBuffer, min nextOffsetBuffer buffer.length)` and
emits `0` for an empty block. -/
def downsampleLoop (buffer : List ℚ) (sr : ℚ) :
    ℕ → ℕ → ℕ → List ℚ
  | 0, _, _ => []
  | n + 1, offsetResult, offsetBuffer =>
    let nextOffsetBuffer := (jsRound (((offsetResult : ℚ) + 1) * sr)).toNat
    let block := (buffer.drop offsetBuffer).take (nextOffsetBuffer - offsetBuffer)
    let out := if block.length = 0 then 0 else block.sum / (block.length : ℚ)
    out :: downsampleLoop buffer sr n (offsetResult + 1) nextOffsetBuffer

/-- Model of `DeepgramProvider.downsampleBuffer` (lines 335-359): identity
when the rates coincide, otherwise block averaging with output length
`Math.round (buffer.length / (srcRate / dstRate))`. -/
def downsampleBuffer (buffer : List ℚ) (srcRate dstRate : ℕ) : List ℚ :=
  if dstRate = srcRate then buffer
  else
    let sr : ℚ := (srcRate : ℚ) / (dstRate : ℚ)
    let newLength := (jsRound ((buffer.length : ℚ) / sr)).toNat
    downsampleLoop buffer sr newLength 0 0

/-- Mean of the input block belonging to output index `k` of the resampler:
the block runs from `Math.round (k * sr)` to `Math.round ((k+1) * sr)`,
clipped to the input length, and an empty block yields `0`. -/
def blockMean (buffer : List ℚ) (sr : ℚ) (k : ℕ) : ℚ :=
  let lo := (jsRound ((k : ℚ) * sr)).toNat
  let hi := (jsRound (((k : ℚ) + 1) * sr)).toNat
  let block := (buffer.drop lo).take (hi - lo)
  if block.length = 0 then 0 else block.sum / (block.length : ℚ)

/-- Helper: the 16-bit wrap is the identity on in-range values. -/
theorem toInt16_eq_self {z : ℤ} (h1 : -32768 ≤ z) (h2 : z ≤ 32767) :
    toInt16 z = z := by
  have h0 : 0 ≤ z + 32768 := by omega
  have hlt : z + 32768 < 65536 := by omega
  simp only [toInt16, Int.emod_eq_of_lt h0 hlt]
  omega

/-- Helper: the clamped sample lies in `[-1, 1]`. -/
theorem clamp_mem (x : ℚ) : -1 ≤ max (-1) (min 1 x) ∧ max (-1) (min 1 x) ≤ 1 := by
  constructor
  · exact le_max_left _ _
  · exact max_le (by norm_num) (min_le_left _ _)

/-- Helper: `encodeSample` with the wrap eliminated: truncation toward zero of
the scaled, clamped sample. -/
theorem encodeSample_eq (x : ℚ) :
    encodeSample x =
      (if max (-1) (min 1 x) < 0 then -⌊-(max (-1) (min 1 x) * 32768)⌋
       else ⌊max (-1) (min 1 x) * 32767⌋) := by
  obtain ⟨hlo, hhi⟩ := clamp_mem x
  set s := max (-1) (min 1 x) with hs
  by_cases hneg : s < 0
  · have hy0 : (0:ℚ) ≤ -(s * 32768) := by nlinarith
    have hy1 : -(s * 32768) ≤ 32768 := by nlinarith
    have hf0 : (0:ℤ) ≤ ⌊-(s * 32768)⌋ := Int.floor_nonneg.mpr hy0
    have hf1 : ⌊-(s * 32768)⌋ ≤ 32768 := by
      have := Int.floor_le_floor hy1
      simpa using this
    have hlt : s * 32768 < 0 := by nlinarith
    simp only [encodeSample, ← hs, if_pos hneg, jsTrunc, if_pos hlt]
    rw [toInt16_eq_self (by omega) (by omega)]
  · push_neg at hneg
    have hy0 : (0:ℚ) ≤ s * 32767 := by nlinarith
    have hy1 : s * 32767 ≤ 32767 := by nlinarith
    have hf0 : (0:ℤ) ≤ ⌊s * 32767⌋ := Int.floor_nonneg.mpr hy0
    have hf1 : ⌊s * 32767⌋ ≤ 32767 := by
      have := Int.floor_le_floor hy1
      simpa using this
    have hnlt : ¬ s * 32767 < 0 := not_lt.mpr hy0
    simp only [encodeSample, ← hs, if_neg (not_lt.mpr hneg), jsTrunc, if_neg hnlt]
    rw [toInt16_eq_self (by omega) (by omega)]

/-- Helper: every encoded sample is an in-range signed 16-bit value. -/
theorem encodeSample_range (x : ℚ) :
    -32768 ≤ encodeSample x ∧ encodeSample x ≤ 32767 := by
  obtain ⟨hlo, hhi⟩ := clamp_mem x
  rw [encodeSample_eq]
  set s := max (-1) (min 1 x) with hs
  by_cases hneg : s < 0
  · have hy0 : (0:ℚ) ≤ -(s * 32768) := by nlinarith
    have hy1 : -(s * 32768) ≤ 32768 := by nlinarith
    have hf0 : (0:ℤ) ≤ ⌊-(s * 32768)⌋ := Int.floor_nonneg.mpr hy0
    have hf1 : ⌊-(s * 32768)⌋ ≤ 32768 := by
      have := Int.floor_le_floor hy1
      simpa using this
    rw [if_pos hneg]
    omega
  · push_neg at hneg
    have hy0 : (0:ℚ) ≤ s * 32767 := by nlinarith
    have hy1 : s * 32767 ≤ 32767 := by nlinarith
    have hf0 : (0:ℤ) ≤ ⌊s * 32767⌋ := Int.floor_nonneg.mpr hy0
    have hf1 : ⌊s * 32767⌋ ≤ 32767 := by
      have := Int.floor_le_floor hy1
      simpa using this
    rw [if_neg (not_lt.mpr hneg)]
    omega

/-- Helper: the little-endian byte buffer has two bytes per sample. -/
theorem pcmBytesLE_length (l : List ℤ) : (pcmBytesLE l).length = 2 * l.length := by
  induction l with
  | nil => simp [pcmBytesLE]
  | cons z rest ih =>
    simp [pcmBytesLE, int16ToBytesLE, ih]
    ring

/-- C4 counterexample: at the sample `1/2` the encoder (which truncates the
scaled value when storing into the `Int16Array`) yields `16383`, while the
claimed `round(s * 32767)` mapping yields `16384`. -/
theorem C4_counterexample :
    convertFloat32ToInt16 [1/2] = [16383] ∧
    specRoundEncode [1/2] = [16384] ∧
    convertFloat32ToInt16 [1/2] ≠ specRoundEncode [1/2] := by
  have h1 : convertFloat32ToInt16 [1/2] = [16383] := by
    have hc : max (-1 : ℚ) (min 1 (1/2)) = 1/2 := by norm_num
    simp only [convertFloat32ToInt16, List.map, encodeSample_eq, hc]
    norm_num
  have h2 : specRoundEncode [1/2] = [16384] := by
    have hc : max (-1 : ℚ) (min 1 (1/2)) = 1/2 := by norm_num
    simp only [specRoundEncode, List.map, specRoundSample, hc, jsRound]
    norm_num
  refine ⟨h1, h2, ?_⟩
  rw [h1, h2]
  simp

/-- C4 (amended): the PCM encoder clamps each sample to `[-1, 1]`, scales by
`32767` for non-negative and `32768` for negative values, and truncates the
result toward zero (not rounds); every output value is an in-range signed
16-bit integer, and the serialized little-endian buffer has exactly
`2 * frameLength` bytes.  The encoder is a total pure function. -/
theorem C4_pcm_encoder (buffer : List ℚ) :
    convertFloat32ToInt16 buffer
      = buffer.map (fun x =>
          if max (-1) (min 1 x) < 0 then -⌊-(max (-1) (min 1 x) * 32768)⌋
          else ⌊max (-1) (min 1 x) * 32767⌋) ∧
    (∀ z ∈ convertFloat32ToInt16 buffer, -32768 ≤ z ∧ z ≤ 32767) ∧
    (pcmBytesLE (convertFloat32ToInt16 buffer)).length = 2 * buffer.length := by
  refine ⟨?_, ?_, ?_⟩
  · simp only [convertFloat32ToInt16]
    exact List.map_congr_left fun x _ => encodeSample_eq x
  · intro z hz
    simp only [convertFloat32ToInt16, List.mem_map] at hz
    obtain ⟨x, _, rfl⟩ := hz
    exact encodeSample_range x
  · rw [pcmBytesLE_length]
    simp [convertFloat32ToInt16]

/-- C5 counterexample: the sample `99999/3276700000` lies in `[-1, 1]`,
encodes (by truncation) to `0`, decodes back to `0`, and the round-trip
error exceeds `1/32768`. -/
theorem C5_counterexample :
    -1 ≤ (99999 : ℚ)/3276700000 ∧ (99999 : ℚ)/3276700000 ≤ 1 ∧
    ¬ (|decodeInt16 (encodeSample (99999/3276700000)) - 99999/3276700000|
        ≤ 1/32768) := by
  have hc : max (-1 : ℚ) (min 1 (99999/3276700000)) = 99999/3276700000 := by
    norm_num
  have henc : encodeSample (99999/3276700000) = 0 := by
    rw [encodeSample_eq, hc]
    norm_num
  have hdec : decodeInt16 0 = 0 := by simp [decodeInt16]
  refine ⟨by norm_num, by norm_num, ?_⟩
  rw [henc, hdec, zero_sub, abs_neg,
    abs_of_nonneg (by norm_num : (0:ℚ) ≤ 99999/3276700000)]
  norm_num

/-- C5 (amended): for every sample in `[-1, 1]`, the truncating encoder
followed by the inverse mapping reproduces the sample within a strict error
bound of `1/32767`. -/
theorem C5_pcm_roundtrip (s : ℚ) (h1 : -1 ≤ s) (h2 : s ≤ 1) :
    |decodeInt16 (encodeSample s) - s| < 1/32767 := by
  have hc : max (-1 : ℚ) (min 1 s) = s := by
    rw [min_eq_right h2, max_eq_right h1]
  rw [encodeSample_eq, hc]
  by_cases hneg : s < 0
  · rw [if_pos hneg]
    set y : ℚ := -(s * 32768) with hy
    have hs : s = -(y / 32768) := by rw [hy]; ring
    have hy0 : (0:ℚ) ≤ y := by nlinarith
    have hf0 : (0:ℤ) ≤ ⌊y⌋ := Int.floor_nonneg.mpr hy0
    have hfle : (⌊y⌋ : ℚ) ≤ y := Int.floor_le y
    have hflt : y < (⌊y⌋ : ℚ) + 1 := Int.lt_floor_add_one y
    by_cases hz : -⌊y⌋ < 0
    · simp only [decodeInt16, if_pos hz]
      have heq : ((-⌊y⌋ : ℤ) : ℚ) / 32768 - s = (y - (⌊y⌋ : ℚ)) / 32768 := by
        push_cast
        rw [hs]
        ring
      rw [heq, abs_of_nonneg (div_nonneg (by linarith) (by norm_num)),
        div_lt_div_iff₀ (by norm_num) (by norm_num)]
      nlinarith
    · have hfl : ⌊y⌋ = 0 := by omega
      have hylt : y < 1 := by
        have h' := hflt
        rw [hfl] at h'
        simpa using h'
      have hsneg : (0:ℚ) ≤ -s := by linarith
      have hdec : decodeInt16 0 = 0 := by simp [decodeInt16]
      rw [hfl, neg_zero, hdec, zero_sub, abs_neg, abs_of_nonpos (le_of_lt hneg)]
      nlinarith
  · rw [if_neg hneg]
    push_neg at hneg
    set y : ℚ := s * 32767 with hy
    have hs : s = y / 32767 := by rw [hy]; ring
    have hy0 : (0:ℚ) ≤ y := by nlinarith
    have hf0 : (0:ℤ) ≤ ⌊y⌋ := Int.floor_nonneg.mpr hy0
    have hfle : (⌊y⌋ : ℚ) ≤ y := Int.floor_le y
    have hflt : y < (⌊y⌋ : ℚ) + 1 := Int.lt_floor_add_one y
    simp only [decodeInt16, if_neg (by omega : ¬ ⌊y⌋ < 0)]
    have heq : ((⌊y⌋ : ℤ) : ℚ) / 32767 - s = -((y - (⌊y⌋ : ℚ)) / 32767) := by
      rw [hs]
      ring
    rw [heq, abs_neg, abs_of_nonneg (div_nonneg (by linarith) (by norm_num)),
      div_lt_div_iff₀ (by norm_num) (by norm_num)]
    nlinarith

/-- C5 witness: the round-trip bound instantiated at the sample `1/2`. -/
theorem C5_witness :
    (-1 ≤ (1:ℚ)/2 ∧ (1:ℚ)/2 ≤ 1) ∧
    |decodeInt16 (encodeSample (1/2)) - 1/2| < 1/32767 :=
  ⟨⟨by norm_num, by norm_num⟩, C5_pcm_roundtrip (1/2) (by norm_num) (by norm_num)⟩

/-- Helper: JavaScript rounding of an exact integer value. -/
theorem jsRound_intCast (n : ℤ) : jsRound (n : ℚ) = n := by
  rw [jsRound, Int.floor_eq_iff]
  constructor
  · linarith
  · linarith

/-- Helper: the loop of `downsampleBuffer`, entered with the buffer offset
that belongs to output index `j`, produces exactly the block means of the
consecutive output indices. -/
theorem downsampleLoop_eq (buffer : List ℚ) (sr : ℚ) :
    ∀ n j,
      downsampleLoop buffer sr n j ((jsRound ((j : ℚ) * sr)).toNat)
        = (List.range n).map (fun i => blockMean buffer sr (j + i)) := by
  intro n
  induction n with
  | zero => intro j; simp [downsampleLoop]
  | succ m ih =>
    intro j
    have hcast : (jsRound (((j : ℚ) + 1) * sr)).toNat
        = (jsRound (((j + 1 : ℕ) : ℚ) * sr)).toNat := by
      push_cast
      ring_nf
    have htail : downsampleLoop buffer sr m (j + 1) ((jsRound (((j : ℚ) + 1) * sr)).toNat)
        = (List.range m).map (fun i => blockMean buffer sr (j + 1 + i)) := by
      rw [hcast]
      exact ih (j + 1)
    have htail2 : (List.range m).map (fun i => blockMean buffer sr (j + 1 + i))
        = (List.range m).map ((fun i => blockMean buffer sr (j + i)) ∘ Nat.succ) := by
      apply List.map_congr_left
      intro i _
      have harg : j + 1 + i = j + (i + 1) := by omega
      simp only [Function.comp_apply, Nat.succ_eq_add_one, harg]
    simp only [downsampleLoop]
    rw [htail, htail2, List.range_succ_eq_map, List.map_cons, List.map_map,
      Nat.add_zero]
    simp only [blockMean]

/-- Helper: with ratio `1` the block of output index `k` is the singleton
`[buffer[k]]`, so the block mean is the input sample itself. -/
theorem blockMean_one (buffer : List ℚ) (k : ℕ) (hk : k < buffer.length) :
    blockMean buffer 1 k = buffer.get ⟨k, hk⟩ := by
  have hlo : (jsRound ((k : ℚ) * 1)).toNat = k := by
    rw [mul_one, show ((k : ℚ)) = ((k : ℤ) : ℚ) by push_cast; ring,
      jsRound_intCast, Int.toNat_natCast]
  have hhi : (jsRound (((k : ℚ) + 1) * 1)).toNat = k + 1 := by
    rw [mul_one, show ((k : ℚ) + 1) = (((k + 1 : ℕ) : ℤ) : ℚ) by push_cast; ring,
      jsRound_intCast, Int.toNat_natCast]
  simp only [blockMean, hlo, hhi]
  have hsub : k + 1 - k = 1 := by omega
  rw [hsub, List.drop_eq_getElem_cons hk, List.take_succ_cons, List.take_zero]
  simp

/-- C6 (confirmed): the resampler obeys the length law
`round (L / (srcRate / dstRate))`; every output sample is the arithmetic mean
of its contiguous input block (`blockMean`, which emits `0` for an empty
block instead of dividing by zero); and equal rates yield the input
unchanged. -/
theorem C6_resampler (buffer : List ℚ) (srcRate dstRate : ℕ)
    (hs : 0 < srcRate) (hd : 0 < dstRate) :
    (downsampleBuffer buffer srcRate dstRate).length
      = (jsRound ((buffer.length : ℚ) / ((srcRate : ℚ) / (dstRate : ℚ)))).toNat ∧
    (∀ k (hk : k < (downsampleBuffer buffer srcRate dstRate).length),
      (downsampleBuffer buffer srcRate dstRate).get ⟨k, hk⟩
        = blockMean buffer ((srcRate : ℚ) / (dstRate : ℚ)) k) ∧
    (srcRate = dstRate → downsampleBuffer buffer srcRate dstRate = buffer) := by
  by_cases heq : dstRate = srcRate
  · subst heq
    have hdq : ((dstRate : ℚ)) ≠ 0 := Nat.cast_ne_zero.mpr (by omega)
    have hr1 : ((dstRate : ℚ)) / ((dstRate : ℚ)) = 1 := div_self hdq
    have hid : downsampleBuffer buffer dstRate dstRate = buffer := by
      simp [downsampleBuffer]
    refine ⟨?_, ?_, fun _ => hid⟩
    · rw [hid, hr1, div_one,
        show ((buffer.length : ℚ)) = ((buffer.length : ℤ) : ℚ) by push_cast; ring,
        jsRound_intCast, Int.toNat_natCast]
    · intro k hk
      have hk2 : k < buffer.length := by
        rw [hid] at hk
        exact hk
      rw [List.get_of_eq hid ⟨k, hk⟩, hr1, blockMean_one buffer k hk2]
  · set sr : ℚ := (srcRate : ℚ) / (dstRate : ℚ) with hsr
    set newLen : ℕ := (jsRound ((buffer.length : ℚ) / sr)).toNat with hnl
    have h0 : (jsRound (((0 : ℕ) : ℚ) * sr)).toNat = 0 := by
      norm_num [jsRound]
    have hmain : downsampleBuffer buffer srcRate dstRate
        = (List.range newLen).map (fun i => blockMean buffer sr i) := by
      rw [downsampleBuffer, if_neg heq]
      calc downsampleLoop buffer sr newLen 0 0
          = downsampleLoop buffer sr newLen 0 ((jsRound (((0 : ℕ) : ℚ) * sr)).toNat) := by
            rw [h0]
        _ = (List.range newLen).map (fun i => blockMean buffer sr (0 + i)) :=
            downsampleLoop_eq buffer sr newLen 0
        _ = (List.range newLen).map (fun i => blockMean buffer sr i) := by
            simp
    refine ⟨?_, ?_, ?_⟩
    · rw [hmain]
      simp
    · intro k hk
      rw [List.get_of_eq hmain ⟨k, hk⟩]
      simp only [List.get_eq_getElem, Fin.coe_cast, List.getElem_map, List.getElem_range]
    · intro h
      exact absurd h.symm heq

/-- C6 witness: the resampler laws instantiated on a concrete four-sample
buffer downsampled from rate 2 to rate 1. -/
theorem C6_witness :
    0 < 2 ∧ 0 < 1 ∧
    (((downsampleBuffer [1, 2, 3, 4] 2 1).length
        = (jsRound ((([1, 2, 3, 4] : List ℚ).length : ℚ) / ((2 : ℚ) / (1 : ℚ)))).toNat) ∧
      (∀ k (hk : k < (downsampleBuffer [1, 2, 3, 4] 2 1).length),
        (downsampleBuffer [1, 2, 3, 4] 2 1).get ⟨k, hk⟩
          = blockMean [1, 2, 3, 4] ((2 : ℚ) / (1 : ℚ)) k) ∧
      (2 = 1 → downsampleBuffer [1, 2, 3, 4] 2 1 = [1, 2, 3, 4])) :=
  ⟨by norm_num, by norm_num, C6_resampler [1, 2, 3, 4] 2 1 (by norm_num) (by norm_num)⟩

/-- Acoustic profile of one speaker (`VoiceProfile` in `VoiceAnalyzer.ts`).
The source keeps two further fields that are written but never read by any
computation: a wall-clock `timestamp`, which the model omits, and
`pitchStdDev = Math.sqrt (pitch variance)`; to stay executable over `ℚ` the
model stores that variance itself (`pitchVariance`), of which the source
field is the monotone square root. -/
structure VoiceProfile where
  avgPitch : ℚ
  pitchVariance : ℚ
  avgEnergy : ℚ
  spectralCentroid : ℚ

/-- Speaker-change event (`SpeakerChangeEvent` in `VoiceAnalyzer.ts`); the
wall-clock `timestamp` field is omitted from the model. -/
structure SpeakerChangeEvent where
  confidence : ℚ
  newSpeaker : ℕ
  pitch : ℚ
  energy : ℚ
  spectralCentroid : ℚ

/-- Return value of `VoiceAnalyzer.analyzeFrame`. -/
structure AnalyzeResult where
  speaker : ℕ
  changeEvent : Option SpeakerChangeEvent

/-- Mutable state of a `VoiceAnalyzer`: the three rolling feature histories,
the two speaker profiles and the current speaker id. -/
structure AnalyzerState where
  pitchHistory : List ℚ
  energyHistory : List ℚ
  spectralHistory : List ℚ
  profile0 : VoiceProfile
  profile1 : VoiceProfile
  currentSpeaker : ℕ

/-- All-zero profile, as installed by the `VoiceAnalyzer` constructor. -/
def initialProfile : VoiceProfile := ⟨0, 0, 0, 0⟩

/-- State of a freshly constructed `VoiceAnalyzer`. -/
def initialAnalyzerState : AnalyzerState :=
  ⟨[], [], [], initialProfile, initialProfile, 0⟩

/-- `VoiceAnalyzer.calculateDistance` (lines 242-257): weighted normalized
distance of a feature triple from a profile, with zero-guards on the pitch
and centroid denominators. -/
def calculateDistance (pitch energy spectralCentroid : ℚ)
    (profile : VoiceProfile) : ℚ :=
  let pitchDiff :=
    if profile.avgPitch > 0 then |pitch - profile.avgPitch| / profile.avgPitch else 0
  let energyDiff := |energy - profile.avgEnergy| / (profile.avgEnergy + 1/100)
  let spectralDiff :=
    if profile.spectralCentroid > 0 then
      |spectralCentroid - profile.spectralCentroid| / profile.spectralCentroid
    else 0
  pitchDiff * (1/2) + energyDiff * (1/4) + spectralDiff * (1/4)

/-- `VoiceAnalyzer.detectSpeakerChange` (lines 210-237): the closer profile
is the candidate speaker; confidence is `min / max` of the two distances,
`1/2` when the maximum is zero. -/
def detectSpeakerChange (pitch energy spectralCentroid : ℚ)
    (p0 p1 : VoiceProfile) : ℕ × ℚ :=
  let distance0 := calculateDistance pitch energy spectralCentroid p0
  let distance1 := calculateDistance pitch energy spectralCentroid p1
  let newSpeaker := if distance0 < distance1 then 0 else 1
  let maxDistance := max distance0 distance1
  let minDistance := min distance0 distance1
  let confidence := if maxDistance > 0 then minDistance / maxDistance else 1/2
  (newSpeaker, confidence)

/-- `VoiceAnalyzer.updateSpeakerProfile` (lines 262-289): exponential moving
average with learning rate `0.1` on the three averaged features, plus
recomputation of the pitch variance from the last 20 history entries (kept
unchanged when that slice is empty). -/
def updateSpeakerProfile (profile : VoiceProfile)
    (pitch energy spectralCentroid : ℚ) (pitchHistory : List ℚ) : VoiceProfile :=
  let alpha : ℚ := 1/10
  let recentPitches := pitchHistory.rtake 20
  let newVariance :=
    if recentPitches.length = 0 then profile.pitchVariance
    else
      let meanPitch := recentPitches.sum / (recentPitches.length : ℚ)
      (recentPitches.map (fun q => (q - meanPitch) ^ 2)).sum
        / (recentPitches.length : ℚ)
  { avgPitch := profile.avgPitch * (1 - alpha) + pitch * alpha
    pitchVariance := newVariance
    avgEnergy := profile.avgEnergy * (1 - alpha) + energy * alpha
    spectralCentroid := profile.spectralCentroid * (1 - alpha) + spectralCentroid * alpha }

/-- `VoiceAnalyzer.analyzeFrame` (lines 59-106), parametrized by the acoustic
features of the frame.  The source first computes
`extractPitch` / `extractEnergy` / `extractSpectralCentroid` — total pure
numeric functions of the frame — and then runs the history and
classification logic below on the three resulting numbers; the model takes
those numbers as arguments.  The frame's features are pushed into the three
histories, the oldest entry is shifted out when the pitch history exceeds 50
entries, and classification runs only when the (trimmed) history holds more
than 10 entries; a change event fires when the candidate differs from the
current speaker with confidence above `0.7`, in which case the candidate's
profile receives the EMA update. -/
def analyzeFrame (st : AnalyzerState) (pitch energy spectralCentroid : ℚ) :
    AnalyzerState × AnalyzeResult :=
  let ph0 := st.pitchHistory ++ [pitch]
  let eh0 := st.energyHistory ++ [energy]
  let sh0 := st.spectralHistory ++ [spectralCentroid]
  let ph := if ph0.length > 50 then ph0.drop 1 else ph0
  let eh := if ph0.length > 50 then eh0.drop 1 else eh0
  let sh := if ph0.length > 50 then sh0.drop 1 else sh0
  if ph.length > 10 then
    let r := detectSpeakerChange pitch energy spectralCentroid st.profile0 st.profile1
    if r.1 ≠ st.currentSpeaker ∧ r.2 > 7/10 then
      let updated := updateSpeakerProfile
        (if r.1 = 0 then st.profile0 else st.profile1) pitch energy spectralCentroid ph
      ({ pitchHistory := ph, energyHistory := eh, spectralHistory := sh
         profile0 := if r.1 = 0 then updated else st.profile0
         profile1 := if r.1 = 0 then st.profile1 else updated
         currentSpeaker := r.1 },
       { speaker := r.1,
         changeEvent := some ⟨r.2, r.1, pitch, energy, spectralCentroid⟩ })
    else
      ({ st with pitchHistory := ph, energyHistory := eh, spectralHistory := sh },
       { speaker := st.currentSpeaker, changeEvent := none })
  else
    ({ st with pitchHistory := ph, energyHistory := eh, spectralHistory := sh },
     { speaker := st.currentSpeaker, changeEvent := none })

/-- Written from the spec's words, for comparison with `analyzeFrame`: the
identical procedure except for the classification gate — the spec skips
classification only while the history has fewer than 10 entries, so
classification runs as soon as the pushed history holds at least 10. -/
def analyzeFrameSpecGate (st : AnalyzerState) (pitch energy spectralCentroid : ℚ) :
    AnalyzerState × AnalyzeResult :=
  let ph0 := st.pitchHistory ++ [pitch]
  let eh0 := st.energyHistory ++ [energy]
  let sh0 := st.spectralHistory ++ [spectralCentroid]
  let ph := if ph0.length > 50 then ph0.drop 1 else ph0
  let eh := if ph0.length > 50 then eh0.drop 1 else eh0
  let sh := if ph0.length > 50 then sh0.drop 1 else sh0
  if ph.length ≥ 10 then
    let r := detectSpeakerChange pitch energy spectralCentroid st.profile0 st.profile1
    if r.1 ≠ st.currentSpeaker ∧ r.2 > 7/10 then
      let updated := updateSpeakerProfile
        (if r.1 = 0 then st.profile0 else st.profile1) pitch energy spectralCentroid ph
      ({ pitchHistory := ph, energyHistory := eh, spectralHistory := sh
         profile0 := if r.1 = 0 then updated else st.profile0
         profile1 := if r.1 = 0 then st.profile1 else updated
         currentSpeaker := r.1 },
       { speaker := r.1,
         changeEvent := some ⟨r.2, r.1, pitch, energy, spectralCentroid⟩ })
    else
      ({ st with pitchHistory := ph, energyHistory := eh, spectralHistory := sh },
       { speaker := st.currentSpeaker, changeEvent := none })
  else
    ({ st with pitchHistory := ph, energyHistory := eh, spectralHistory := sh },
     { speaker := st.currentSpeaker, changeEvent := none })

/-- `VoiceAnalyzer.reset` (lines 305-317): clears the histories, restores
speaker 0 and zeroes every scalar field of both profiles. -/
def resetAnalyzer (_st : AnalyzerState) : AnalyzerState :=
  { pitchHistory := [], energyHistory := [], spectralHistory := [],
    profile0 := ⟨0, 0, 0, 0⟩, profile1 := ⟨0, 0, 0, 0⟩, currentSpeaker := 0 }

/-- Feeding a list of per-frame feature triples through `analyzeFrame`,
returning the final analyzer state. -/
def runAnalyzer (st : AnalyzerState) : List (ℚ × ℚ × ℚ) → AnalyzerState
  | [] => st
  | f :: rest => runAnalyzer (analyzeFrame st f.1 f.2.1 f.2.2).1 rest

/-- States of a `VoiceAnalyzer` reachable from construction through any
sequence of `analyzeFrame` calls and session resets. -/
inductive AnalyzerReachable : AnalyzerState → Prop
  | init : AnalyzerReachable initialAnalyzerState
  | step (st : AnalyzerState) (p e c : ℚ) :
      AnalyzerReachable st → AnalyzerReachable (analyzeFrame st p e c).1
  | reset (st : AnalyzerState) :
      AnalyzerReachable st → AnalyzerReachable (resetAnalyzer st)

/-- Invariant of C10: the three histories stay aligned and bounded by 50
entries, and the current speaker id is binary. -/
def analyzerInvariant (st : AnalyzerState) : Prop :=
  st.pitchHistory.length = st.energyHistory.length ∧
  st.pitchHistory.length = st.spectralHistory.length ∧
  st.pitchHistory.length ≤ 50 ∧
  (st.currentSpeaker = 0 ∨ st.currentSpeaker = 1)

/-- Helper: while the pushed history holds at most 10 entries, `analyzeFrame`
only appends to the histories and classifies nothing. -/
theorem analyzeFrame_push_only (st : AnalyzerState) (p e c : ℚ)
    (h10 : st.pitchHistory.length + 1 ≤ 10) :
    analyzeFrame st p e c =
      ({ st with pitchHistory := st.pitchHistory ++ [p],
                 energyHistory := st.energyHistory ++ [e],
                 spectralHistory := st.spectralHistory ++ [c] },
       { speaker := st.currentSpeaker, changeEvent := none }) := by
  have h50 : ¬ ((st.pitchHistory ++ [p]).length > 50) := by
    simp only [List.length_append, List.length_cons, List.length_nil]
    omega
  have h10n : ¬ ((st.pitchHistory ++ [p]).length > 10) := by
    simp only [List.length_append, List.length_cons, List.length_nil]
    omega
  simp only [analyzeFrame, if_neg h50, if_neg h10n]

/-- Helper: the post-call pitch history is the pushed, possibly trimmed
history, independent of the classification branch. -/
theorem analyzeFrame_pitchHistory (st : AnalyzerState) (p e c : ℚ) :
    (analyzeFrame st p e c).1.pitchHistory
      = (if (st.pitchHistory ++ [p]).length > 50
         then (st.pitchHistory ++ [p]).drop 1 else st.pitchHistory ++ [p]) := by
  simp only [analyzeFrame]
  split_ifs <;> rfl

/-- Helper: the candidate speaker chosen by the classifier is binary. -/
theorem detectSpeakerChange_speaker (p e c : ℚ) (p0 p1 : VoiceProfile) :
    (detectSpeakerChange p e c p0 p1).1 = 0 ∨ (detectSpeakerChange p e c p0 p1).1 = 1 := by
  simp only [detectSpeakerChange]
  split_ifs <;> simp

/-- Helper: the speaker returned by `analyzeFrame` is the post-call current
speaker. -/
theorem analyzeFrame_speaker_eq (st : AnalyzerState) (p e c : ℚ) :
    (analyzeFrame st p e c).2.speaker = (analyzeFrame st p e c).1.currentSpeaker := by
  simp only [analyzeFrame]
  split_ifs <;> rfl

/-- Helper: one `analyzeFrame` call preserves the C10 invariant. -/
theorem analyzeFrame_preserves (st : AnalyzerState) (p e c : ℚ)
    (h : analyzerInvariant st) : analyzerInvariant (analyzeFrame st p e c).1 := by
  obtain ⟨h1, h2, h3, h4⟩ := h
  have hsp := detectSpeakerChange_speaker p e c st.profile0 st.profile1
  simp only [analyzerInvariant, analyzeFrame]
  split_ifs <;> simp_all [List.length_append, List.length_drop]

/-- Helper: a run of frames that never fills the history past 10 entries is a
pure history append. -/
theorem runAnalyzer_quiet (fs : List (ℚ × ℚ × ℚ)) :
    ∀ st : AnalyzerState, st.pitchHistory.length + fs.length ≤ 10 →
      runAnalyzer st fs =
        { st with pitchHistory := st.pitchHistory ++ fs.map (fun f => f.1),
                  energyHistory := st.energyHistory ++ fs.map (fun f => f.2.1),
                  spectralHistory := st.spectralHistory ++ fs.map (fun f => f.2.2) } := by
  induction fs with
  | nil => intro st _; simp [runAnalyzer]
  | cons f rest ih =>
    intro st h
    have hlen : st.pitchHistory.length + 1 ≤ 10 := by
      simp only [List.length_cons] at h
      omega
    have h2 : st.pitchHistory.length + 1 + rest.length ≤ 10 := by
      simp only [List.length_cons] at h
      omega
    rw [runAnalyzer, analyzeFrame_push_only st f.1 f.2.1 f.2.2 hlen]
    rw [ih _ (by simp; omega)]
    simp [List.append_assoc]

/-- Helper: the classifier on a fresh pair of all-zero profiles and the
feature triple `(0, 1, 0)` picks speaker 1 with confidence 1. -/
theorem detectSpeakerChange_fresh :
    detectSpeakerChange 0 1 0 initialProfile initialProfile = (1, 1) := by
  simp only [detectSpeakerChange, calculateDistance, initialProfile]
  norm_num

/-- C2 counterexample: feed ten identical frames with features `(0, 1, 0)`
from a fresh analyzer.  On the tenth frame the history holds exactly 10
entries, yet the code performs no classification (it requires strictly more
than 10): the result carries no change event, while the spec's gate
(classify once at least 10 entries are present) fires a change event to
speaker 1 with confidence 1 on that same frame. -/
theorem C2_counterexample :
    (analyzeFrame (runAnalyzer initialAnalyzerState (List.replicate 9 (0, 1, 0))) 0 1 0).2.changeEvent
        = none ∧
    (analyzeFrame (runAnalyzer initialAnalyzerState (List.replicate 9 (0, 1, 0))) 0 1 0).1.pitchHistory.length
        = 10 ∧
    (analyzeFrameSpecGate (runAnalyzer initialAnalyzerState (List.replicate 9 (0, 1, 0))) 0 1 0).2.changeEvent
        ≠ none := by
  have hrun : runAnalyzer initialAnalyzerState (List.replicate 9 ((0:ℚ), (1:ℚ), (0:ℚ)))
      = { pitchHistory := List.replicate 9 0, energyHistory := List.replicate 9 1,
          spectralHistory := List.replicate 9 0, profile0 := initialProfile,
          profile1 := initialProfile, currentSpeaker := 0 } := by
    rw [runAnalyzer_quiet _ _ (by simp [initialAnalyzerState])]
    simp [initialAnalyzerState]
  rw [hrun]
  set st9 : AnalyzerState :=
    { pitchHistory := List.replicate 9 0, energyHistory := List.replicate 9 1,
      spectralHistory := List.replicate 9 0, profile0 := initialProfile,
      profile1 := initialProfile, currentSpeaker := 0 } with hst9
  have hpush := analyzeFrame_push_only st9 0 1 0 (by simp [hst9])
  refine ⟨?_, ?_, ?_⟩
  · rw [hpush]
  · rw [hpush]
    simp [hst9]
  · have h50 : ¬ ((st9.pitchHistory ++ [(0:ℚ)]).length > 50) := by simp [hst9]
    have h10 : (if (st9.pitchHistory ++ [(0:ℚ)]).length > 50
        then (st9.pitchHistory ++ [(0:ℚ)]).drop 1
        else st9.pitchHistory ++ [(0:ℚ)]).length ≥ 10 := by
      rw [if_neg h50]
      simp [hst9]
    have hcond : (detectSpeakerChange 0 1 0 st9.profile0 st9.profile1).1 ≠ st9.currentSpeaker ∧
        (detectSpeakerChange 0 1 0 st9.profile0 st9.profile1).2 > 7/10 := by
      have : st9.profile0 = initialProfile := rfl
      rw [this, show st9.profile1 = initialProfile from rfl, detectSpeakerChange_fresh]
      refine ⟨by simp [hst9], by norm_num⟩
    simp only [analyzeFrameSpecGate, if_pos h10, if_pos hcond]
    simp

/-- C2 (amended): classification is skipped — the frame returns the current
speaker with no change event — whenever the post-call history holds at most
10 entries, and classification is performed on every frame whose post-call
history holds more than 10 entries, its outcome determined by
`detectSpeakerChange` against the 0.7 confidence gate. -/
theorem C2_classification_gate (st : AnalyzerState) (p e c : ℚ) :
    ((analyzeFrame st p e c).1.pitchHistory.length ≤ 10 →
      (analyzeFrame st p e c).2
        = { speaker := st.currentSpeaker, changeEvent := none }) ∧
    ((analyzeFrame st p e c).1.pitchHistory.length > 10 →
      ((((detectSpeakerChange p e c st.profile0 st.profile1).1 ≠ st.currentSpeaker ∧
          (detectSpeakerChange p e c st.profile0 st.profile1).2 > 7/10) →
        (analyzeFrame st p e c).2
          = { speaker := (detectSpeakerChange p e c st.profile0 st.profile1).1,
              changeEvent := some
                ⟨(detectSpeakerChange p e c st.profile0 st.profile1).2,
                 (detectSpeakerChange p e c st.profile0 st.profile1).1, p, e, c⟩ }) ∧
       (¬ ((detectSpeakerChange p e c st.profile0 st.profile1).1 ≠ st.currentSpeaker ∧
            (detectSpeakerChange p e c st.profile0 st.profile1).2 > 7/10) →
        (analyzeFrame st p e c).2
          = { speaker := st.currentSpeaker, changeEvent := none }))) := by
  have hph := analyzeFrame_pitchHistory st p e c
  by_cases h10 : (if (st.pitchHistory ++ [p]).length > 50
      then (st.pitchHistory ++ [p]).drop 1 else st.pitchHistory ++ [p]).length > 10
  · constructor
    · intro hle
      rw [hph] at hle
      omega
    · intro _
      constructor
      · intro hcond
        simp only [analyzeFrame, if_pos h10, if_pos hcond]
      · intro hcond
        simp only [analyzeFrame, if_pos h10, if_neg hcond]
  · constructor
    · intro _
      simp only [analyzeFrame, if_neg h10]
    · intro hgt
      rw [hph] at hgt
      omega

/-- C2 witness: the gate instantiated on a fresh analyzer and one frame,
whose post-call history holds a single entry, hence no classification. -/
theorem C2_witness :
    (analyzeFrame initialAnalyzerState 0 1 0).1.pitchHistory.length ≤ 10 ∧
    (analyzeFrame initialAnalyzerState 0 1 0).2
      = { speaker := initialAnalyzerState.currentSpeaker, changeEvent := none } :=
  ⟨by simp [analyzeFrame_pitchHistory, initialAnalyzerState],
   (C2_classification_gate initialAnalyzerState 0 1 0).1
     (by simp [analyzeFrame_pitchHistory, initialAnalyzerState])⟩

/-- Helper: the profile distance is non-negative whenever the profile's
average energy is (the pitch and centroid terms are zero-guarded). -/
theorem calculateDistance_nonneg (p e c : ℚ) (profile : VoiceProfile)
    (h : 0 ≤ profile.avgEnergy) :
    0 ≤ calculateDistance p e c profile := by
  simp only [calculateDistance]
  have h1 : (0:ℚ) ≤
      (if profile.avgPitch > 0 then |p - profile.avgPitch| / profile.avgPitch else 0) := by
    split_ifs with hp
    · exact div_nonneg (abs_nonneg _) (le_of_lt hp)
    · exact le_refl 0
  have h2 : (0:ℚ) ≤ |e - profile.avgEnergy| / (profile.avgEnergy + 1/100) :=
    div_nonneg (abs_nonneg _) (by linarith)
  have h3 : (0:ℚ) ≤
      (if profile.spectralCentroid > 0 then
        |c - profile.spectralCentroid| / profile.spectralCentroid else 0) := by
    split_ifs with hc
    · exact div_nonneg (abs_nonneg _) (le_of_lt hc)
    · exact le_refl 0
  positivity

/-- Profile with unit average energy and all other scalars zero, used to
produce sharply diverging distances. -/
def energyOneProfile : VoiceProfile := ⟨0, 0, 1, 0⟩

/-- C3 counterexample: with the feature triple `(0, 1, 0)`, two identical
all-zero profiles give exactly equal distances (maximal ambiguity) yet
confidence 1 — the highest possible value — while pairing the all-zero
profile with `energyOneProfile` gives sharply diverging distances (25
against 0) yet confidence 0.  The claim's direction — LOW when the
distances are nearly equal, HIGH when they diverge — is therefore false. -/
theorem C3_counterexample :
    calculateDistance 0 1 0 initialProfile = 25 ∧
    calculateDistance 0 1 0 energyOneProfile = 0 ∧
    detectSpeakerChange 0 1 0 initialProfile initialProfile = (1, 1) ∧
    detectSpeakerChange 0 1 0 initialProfile energyOneProfile = (1, 0) ∧
    ¬ ((1 : ℚ) < 0) := by
  refine ⟨?_, ?_, detectSpeakerChange_fresh, ?_, by norm_num⟩
  · simp only [calculateDistance, initialProfile]
    norm_num
  · simp only [calculateDistance, energyOneProfile]
    norm_num
  · simp only [detectSpeakerChange, calculateDistance, initialProfile, energyOneProfile]
    norm_num

/-- C3 (amended): the classifier's confidence equals
`min(d0,d1) / max(d0,d1)` with value `1/2` when the maximum is zero; it lies
in `[0, 1]`, and its direction is the opposite of the claim's: confidence is
HIGH (equal to 1) when the two distances coincide, and equals `d0 / d1`
(tending to 0) as the distances diverge. -/
theorem C3_confidence_formula (p e c : ℚ) (p0 p1 : VoiceProfile)
    (h0 : 0 ≤ p0.avgEnergy) (h1 : 0 ≤ p1.avgEnergy) :
    (0 < max (calculateDistance p e c p0) (calculateDistance p e c p1) →
      (detectSpeakerChange p e c p0 p1).2
        = min (calculateDistance p e c p0) (calculateDistance p e c p1)
            / max (calculateDistance p e c p0) (calculateDistance p e c p1)) ∧
    (max (calculateDistance p e c p0) (calculateDistance p e c p1) = 0 →
      (detectSpeakerChange p e c p0 p1).2 = 1/2) ∧
    (0 ≤ (detectSpeakerChange p e c p0 p1).2 ∧
      (detectSpeakerChange p e c p0 p1).2 ≤ 1) ∧
    (0 < calculateDistance p e c p0 →
      calculateDistance p e c p0 = calculateDistance p e c p1 →
      (detectSpeakerChange p e c p0 p1).2 = 1) ∧
    (0 < calculateDistance p e c p1 →
      calculateDistance p e c p0 ≤ calculateDistance p e c p1 →
      (detectSpeakerChange p e c p0 p1).2
        = calculateDistance p e c p0 / calculateDistance p e c p1) := by
  have hd0 := calculateDistance_nonneg p e c p0 h0
  have hd1 := calculateDistance_nonneg p e c p1 h1
  set d0 := calculateDistance p e c p0 with hdef0
  set d1 := calculateDistance p e c p1 with hdef1
  have hconf : (detectSpeakerChange p e c p0 p1).2
      = (if max d0 d1 > 0 then min d0 d1 / max d0 d1 else 1/2) := by
    simp only [detectSpeakerChange, ← hdef0, ← hdef1]
  refine ⟨?_, ?_, ?_, ?_, ?_⟩
  · intro hpos
    rw [hconf, if_pos hpos]
  · intro hzero
    rw [hconf, hzero]
    norm_num
  · rw [hconf]
    split_ifs with hpos
    · constructor
      · exact div_nonneg (le_min hd0 hd1) (le_of_lt hpos)
      · exact div_le_one_of_le₀ (min_le_max) (le_of_lt hpos)
    · norm_num
  · intro hp0 heq
    rw [hconf, if_pos (by rw [max_eq_right (le_of_eq heq)]; linarith)]
    rw [min_eq_left (le_of_eq heq), max_eq_right (le_of_eq heq), ← heq]
    exact div_self (ne_of_gt hp0)
  · intro hp1 hle
    rw [hconf, if_pos (by rw [max_eq_right hle]; exact hp1)]
    rw [min_eq_left hle, max_eq_right hle]

/-- C3 witness: the confidence laws instantiated at the feature triple
`(0, 1, 0)` against the all-zero profile and `energyOneProfile`. -/
theorem C3_witness :
    0 ≤ (detectSpeakerChange 0 1 0 initialProfile energyOneProfile).2 ∧
    (detectSpeakerChange 0 1 0 initialProfile energyOneProfile).2 ≤ 1 :=
  (C3_confidence_formula 0 1 0 initialProfile energyOneProfile
    (by norm_num [initialProfile]) (by norm_num [energyOneProfile])).2.2.1

/-- C10 (confirmed): in every reachable analyzer state — after construction,
any sequence of `analyzeFrame` calls and resets — the three feature
histories have equal lengths, that common length never exceeds 50, and the
speaker value returned by a further `analyzeFrame` call (which equals the
stored current speaker) is always 0 or 1. -/
theorem C10_analyzer_invariants (st : AnalyzerState) (h : AnalyzerReachable st) :
    analyzerInvariant st ∧
    ∀ p e c : ℚ,
      (analyzeFrame st p e c).2.speaker = 0 ∨ (analyzeFrame st p e c).2.speaker = 1 := by
  have hinv : analyzerInvariant st := by
    induction h with
    | init =>
      exact ⟨rfl, rfl, by simp [initialAnalyzerState], Or.inl rfl⟩
    | step st0 p e c _ ih =>
      exact analyzeFrame_preserves st0 p e c ih
    | reset st0 _ _ =>
      exact ⟨rfl, rfl, by simp [resetAnalyzer], Or.inl rfl⟩
  refine ⟨hinv, fun p e c => ?_⟩
  have h2 := analyzeFrame_preserves st p e c hinv
  rw [analyzeFrame_speaker_eq]
  exact h2.2.2.2

/-- C10 witness: the invariants instantiated at the state reached after one
`analyzeFrame` call on a fresh analyzer. -/
theorem C10_witness :
    analyzerInvariant (analyzeFrame initialAnalyzerState 0 1 0).1 ∧
    ∀ p e c : ℚ,
      (analyzeFrame (analyzeFrame initialAnalyzerState 0 1 0).1 p e c).2.speaker = 0 ∨
      (analyzeFrame (analyzeFrame initialAnalyzerState 0 1 0).1 p e c).2.speaker = 1 :=
  C10_analyzer_invariants _
    (AnalyzerReachable.step initialAnalyzerState 0 1 0 AnalyzerReachable.init)

/-- State of the VAD / pre-roll handler installed in
`DeepgramProvider.startListening` (lines 147-206): the pre-roll FIFO of
encoded frames, the `inSpeech` flag and the last speech timestamp. -/
structure VadState (α : Type) where
  preRoll : List α
  inSpeech : Bool
  lastSpeechTs : ℚ

/-- One worklet message as seen by the handler.  The frame is abstract (the
handler treats the encoded `Int16Array` opaquely); `rms` is the RMS the
handler computes for the downsampled frame (a square root in the source,
carried here as a given rational); `now` is `Date.now()`; `wsOpen` records
whether the socket is `OPEN` during this callback. -/
structure VadInput (α : Type) where
  frame : α
  rms : ℚ
  now : ℚ
  wsOpen : Bool

/-- Handler state at `startListening`: empty FIFO, not in speech. -/
def vadInit (α : Type) : VadState α := ⟨[], false, 0⟩

/-- FIFO push with oldest-evicted-on-overflow at capacity `maxPreRoll = 8`
(lines 170-171: push, then shift when the length exceeds 8). -/
def pushTrim {α : Type} (l : List α) (a : α) : List α :=
  if (l ++ [a]).length > 8 then (l ++ [a]).drop 1 else l ++ [a]

/-- One invocation of the `node.port.onmessage` VAD handler (lines 157-206):
push the current frame into the pre-roll FIFO (evicting the oldest beyond
capacity 8); on a loud frame (`rms ≥ 0.01`) enter speech, flush the whole
FIFO oldest-first and then send the current frame again, clearing the FIFO;
on a quiet frame send the current frame only during the 300 ms hangover
window, leaving speech mode once it has elapsed.  Sends happen only while
the socket is open; the returned list is what the transport receives, in
order. -/
def vadStep {α : Type} (st : VadState α) (inp : VadInput α) :
    VadState α × List α :=
  let pr := pushTrim st.preRoll inp.frame
  if inp.rms ≥ 1/100 then
    ((⟨[], true, inp.now⟩ : VadState α),
      (if inp.wsOpen then pr else []) ++ (if inp.wsOpen then [inp.frame] else []))
  else
    if st.inSpeech then
      if inp.now - st.lastSpeechTs ≤ 300 then
        ((⟨pr, st.inSpeech, st.lastSpeechTs⟩ : VadState α),
          if inp.wsOpen then [inp.frame] else [])
      else
        ((⟨pr, false, st.lastSpeechTs⟩ : VadState α), [])
    else
      ((⟨pr, st.inSpeech, st.lastSpeechTs⟩ : VadState α), [])

/-- Folding a sequence of worklet messages through the handler, collecting
everything sent to the transport in order. -/
def vadRun {α : Type} (st : VadState α) : List (VadInput α) → VadState α × List α
  | [] => (st, [])
  | i :: rest =>
    let s1 := vadStep st i
    let s2 := vadRun s1.1 rest
    (s2.1, s1.2 ++ s2.2)

/-- Helper: `rtake` never returns more than requested. -/
theorem rtake_length_le {α : Type} (l : List α) (n : ℕ) :
    (l.rtake n).length ≤ n := by
  simp only [List.rtake, List.length_drop]
  omega

/-- Helper: under the capacity bound, the FIFO push keeps the last 8
elements of the appended list. -/
theorem pushTrim_eq_rtake {α : Type} (l : List α) (a : α) (h : l.length ≤ 8) :
    pushTrim l a = (l ++ [a]).rtake 8 := by
  simp only [pushTrim, List.rtake]
  split_ifs with hlen
  · congr 1
    simp only [List.length_append, List.length_cons, List.length_nil] at hlen ⊢
    omega
  · simp only [List.length_append, List.length_cons, List.length_nil] at hlen ⊢
    have hz : l.length + (0 + 1) - 8 = 0 := by omega
    rw [hz, List.drop_zero]

/-- Helper: keeping the last `n` elements before appending keeps the same
last `n` elements afterwards. -/
theorem rtake_rtake_append {α : Type} (x y : List α) (n : ℕ) :
    ((x.rtake n) ++ y).rtake n = (x ++ y).rtake n := by
  simp only [List.rtake_eq_reverse_take_reverse, List.reverse_append, List.reverse_reverse]
  rw [List.take_append_eq_append_take, List.take_append_eq_append_take, List.take_take,
    min_eq_left (Nat.sub_le _ _)]

/-- Helper: the last `n + 1` elements of `l ++ [a]` are the last `n` of `l`
followed by `a`. -/
theorem rtake_append_singleton {α : Type} (l : List α) (a : α) (n : ℕ) :
    (l ++ [a]).rtake (n + 1) = l.rtake n ++ [a] := by
  rw [List.rtake_eq_reverse_take_reverse, List.rtake_eq_reverse_take_reverse,
    List.reverse_append, List.reverse_singleton, List.singleton_append,
    List.take_succ_cons, List.reverse_cons]

/-- Helper: a quiet step outside speech mode only pushes into the FIFO. -/
theorem vadStep_quiet {α : Type} (st : VadState α) (i : VadInput α)
    (hsp : st.inSpeech = false) (hq : i.rms < 1/100) :
    vadStep st i = (⟨pushTrim st.preRoll i.frame, false, st.lastSpeechTs⟩, []) := by
  simp only [vadStep, if_neg (not_le.mpr hq), hsp]
  simp

/-- Helper: a run of quiet frames outside speech mode sends nothing and
folds the frames into the FIFO. -/
theorem vadRun_quiet {α : Type} (qs : List (VadInput α)) :
    ∀ st : VadState α, st.inSpeech = false → (∀ i ∈ qs, i.rms < 1/100) →
      vadRun st qs
        = (⟨List.foldl pushTrim st.preRoll (qs.map VadInput.frame),
            false, st.lastSpeechTs⟩, []) := by
  induction qs with
  | nil =>
    intro st hsp _
    obtain ⟨pr, isp, ts⟩ := st
    simp only [VadState.mk.injEq] at hsp ⊢
    simp [vadRun, hsp]
  | cons q rest ih =>
    intro st hsp hq
    have hqr : q.rms < 1/100 := hq q (by simp)
    have hrest : ∀ i ∈ rest, i.rms < 1/100 := fun i hi => hq i (by simp [hi])
    simp only [vadRun, vadStep_quiet st q hsp hqr]
    rw [ih ⟨pushTrim st.preRoll q.frame, false, st.lastSpeechTs⟩ rfl hrest]
    simp

/-- Helper: folding pushes from a FIFO within capacity keeps the last 8 of
the concatenation. -/
theorem foldl_pushTrim_rtake {α : Type} (qs : List α) :
    ∀ l : List α, l.length ≤ 8 →
      List.foldl pushTrim l qs = (l ++ qs).rtake 8 := by
  induction qs with
  | nil =>
    intro l h
    simp only [List.foldl_nil, List.append_nil, List.rtake]
    rw [Nat.sub_eq_zero_of_le h, List.drop_zero]
  | cons a rest ih =>
    intro l h
    rw [List.foldl_cons, pushTrim_eq_rtake l a h,
      ih _ (rtake_length_le _ _), rtake_rtake_append]
    simp

/-- Helper: runs compose over list concatenation. -/
theorem vadRun_append {α : Type} (xs ys : List (VadInput α)) :
    ∀ st : VadState α,
      vadRun st (xs ++ ys)
        = ((vadRun (vadRun st xs).1 ys).1,
           (vadRun st xs).2 ++ (vadRun (vadRun st xs).1 ys).2) := by
  induction xs with
  | nil => intro st; simp [vadRun]
  | cons x rest ih =>
    intro st
    simp only [List.cons_append, vadRun, List.append_eq]
    rw [ih ((vadStep st x).1)]
    simp [List.append_assoc]

/-- C1 counterexample: one quiet frame (frame id 0, RMS 0) followed by one
loud frame (frame id 1, RMS at the threshold), socket open throughout.  The
claim predicts the transport receives `min(1, 8) = 1` buffered frame and
then the loud frame exactly once, i.e. `[0, 1]`; the handler actually sends
`[0, 1, 1]`, because the current frame is pushed into the FIFO before the
flush and then sent again explicitly. -/
theorem C1_counterexample :
    (vadRun (vadInit ℕ) [⟨0, 0, 0, true⟩, ⟨1, 1/100, 0, true⟩]).2 = [0, 1, 1] ∧
    ([0, 1, 1] : List ℕ) ≠ [0, 1] := by
  constructor
  · have h1 : ¬ ((0:ℚ) ≥ 1/100) := by norm_num
    have h2 : ((1:ℚ)/100 ≥ 1/100) := le_refl _
    simp only [vadRun, vadStep, pushTrim, vadInit, if_neg h1, if_pos h2]
    norm_num
  · simp

/-- C1 (amended): starting from a fresh handler, a sequence of N quiet
frames followed by one loud frame (socket open on the loud callback) makes
the transport receive exactly the last `min(N, 7)` quiet frames — capacity 8
minus the FIFO slot the loud frame itself occupies — in arrival order,
followed by the loud frame twice: once as the newest element of the
oldest-first FIFO flush and once as the explicit current-frame send.  The
FIFO is left empty and the handler is in speech mode. -/
theorem C1_preroll_flush {α : Type} (qs : List (VadInput α)) (loud : VadInput α)
    (hq : ∀ i ∈ qs, i.rms < 1/100)
    (hl : loud.rms ≥ 1/100) (ho : loud.wsOpen = true) :
    vadRun (vadInit α) (qs ++ [loud])
      = (⟨[], true, loud.now⟩,
         (qs.map VadInput.frame).rtake 7 ++ [loud.frame, loud.frame]) := by
  have hquiet := vadRun_quiet qs (vadInit α) rfl hq
  have hfold : List.foldl pushTrim (vadInit α).preRoll (qs.map VadInput.frame)
      = (qs.map VadInput.frame).rtake 8 := by
    have h := foldl_pushTrim_rtake (qs.map VadInput.frame) [] (by simp)
    simpa [vadInit] using h
  have hpr : pushTrim ((qs.map VadInput.frame).rtake 8) loud.frame
      = (qs.map VadInput.frame).rtake 7 ++ [loud.frame] := by
    rw [pushTrim_eq_rtake _ _ (rtake_length_le _ _), rtake_rtake_append]
    exact rtake_append_singleton _ loud.frame 7
  rw [vadRun_append qs [loud] (vadInit α), hquiet]
  simp only [vadRun, vadStep, if_pos hl, ho, hfold, hpr]
  simp [List.append_assoc]

/-- C1 witness: the flush law instantiated on one quiet frame and one loud
frame over natural-number frame ids. -/
theorem C1_witness :
    vadRun (vadInit ℕ) ([⟨0, 0, 0, true⟩] ++ [⟨1, 1/100, 5, true⟩])
      = (⟨[], true, 5⟩,
         (([⟨0, 0, 0, true⟩] : List (VadInput ℕ)).map VadInput.frame).rtake 7
           ++ [1, 1]) :=
  C1_preroll_flush [⟨0, 0, 0, true⟩] ⟨1, 1/100, 5, true⟩
    (by intro i hi; simp at hi; subst hi; norm_num) (le_refl _) rfl

/-- `maxReconnectAttempts` of the provider (line 25). -/
def maxReconnectAttempts : ℕ := 5

/-- `DeepgramProvider.attemptReconnect` (lines 410-432; the AssemblyAI
provider carries the identical code): below the maximum the counter is
incremented and a timer of `min (1000 * 2 ^ attempts) 10000` ms is
scheduled; otherwise nothing is scheduled and the fatal
"could not reconnect" error is reported.  Returns the new counter, the
scheduled delay and the fatal flag. -/
def attemptReconnect (reconnectAttempts : ℕ) : ℕ × Option ℕ × Bool :=
  if reconnectAttempts < maxReconnectAttempts then
    let a := reconnectAttempts + 1
    (a, some (min (1000 * 2 ^ a) 10000), false)
  else
    (reconnectAttempts, none, true)

/-- The `ws.onopen` handler (line 44) resets the attempt counter to 0 on
any successful connection. -/
def wsOnOpenReset (_reconnectAttempts : ℕ) : ℕ := 0

/-- Iterating `attemptReconnect` over consecutive connection failures from a
fresh provider: the final counter, every scheduled delay in order, and
whether the fatal error has been reported. -/
def reconnectTrace : ℕ → ℕ × List ℕ × Bool
  | 0 => (0, [], false)
  | k + 1 =>
    let t := reconnectTrace k
    let r := attemptReconnect t.1
    (r.1, t.2.1 ++ r.2.1.toList, t.2.2 || r.2.2)

/-- Helper: from the sixth failure on, the trace is frozen at five attempts,
the five recorded delays, and a reported fatal error. -/
theorem reconnectTrace_ge6 :
    ∀ m, reconnectTrace (6 + m) = (5, [2000, 4000, 8000, 10000, 10000], true) := by
  intro m
  induction m with
  | zero => decide
  | succ n ih =>
    show reconnectTrace ((6 + n) + 1) = _
    rw [reconnectTrace, ih]
    decide

/-- C7 (confirmed): the reconnect delays are exactly
`2000, 4000, 8000, 10000, 10000` ms for attempts 1 through 5 and follow
`min (1000 * 2 ^ n) 10000`; the fatal error is reported exactly from the
sixth consecutive failure on, with no sixth delay ever scheduled; and a
successful connection resets the attempt counter to 0. -/
theorem C7_backoff_policy :
    (∀ k, (reconnectTrace k).2.1 = [2000, 4000, 8000, 10000, 10000].take k) ∧
    (∀ k, ((reconnectTrace k).2.2 = true ↔ 6 ≤ k)) ∧
    (∀ n, wsOnOpenReset n = 0) ∧
    (∀ n, 1 ≤ n → n ≤ 5 →
      (attemptReconnect (n - 1)).2.1 = some (min (1000 * 2 ^ n) 10000)) := by
  refine ⟨?_, ?_, fun _ => rfl, ?_⟩
  · intro k
    by_cases hk : k ≤ 6
    · interval_cases k <;> decide
    · have hm : k = 6 + (k - 6) := by omega
      rw [hm, reconnectTrace_ge6]
      rw [List.take_of_length_le (by simp; omega)]
  · intro k
    by_cases hk : k ≤ 6
    · interval_cases k <;> decide
    · have hm : k = 6 + (k - 6) := by omega
      rw [hm, reconnectTrace_ge6]
      simp
  · intro n h1 h5
    interval_cases n <;> decide

/-- C7 witness: the backoff policy instantiated after six failures and at
the fifth attempt. -/
theorem C7_witness :
    (reconnectTrace 6).2.1 = [2000, 4000, 8000, 10000, 10000].take 6 ∧
    ((reconnectTrace 6).2.2 = true ↔ 6 ≤ 6) ∧
    wsOnOpenReset 3 = 0 ∧
    (attemptReconnect (5 - 1)).2.1 = some (min (1000 * 2 ^ 5) 10000) :=
  ⟨C7_backoff_policy.1 6, C7_backoff_policy.2.1 6, C7_backoff_policy.2.2.1 3,
   C7_backoff_policy.2.2.2 5 (by norm_num) (by norm_num)⟩

/-- Connection-handling state of the provider for C8.  `handlerAttached`
records that a socket object exists whose `onclose` handler (installed in
`initialize`, lines 60-63) is still registered; `wsField` is whether
`this.ws` is non-null.  `disconnect` (lines 305-323) calls `ws.close()` and
nulls the field, but neither detaches the handler nor sets any
intentional-close flag, and the platform still delivers the close event of
the closed socket afterwards. -/
structure ProviderConnState where
  handlerAttached : Bool
  wsField : Bool
  reconnectAttempts : ℕ
  reconnectScheduled : Bool
  fatalReported : Bool

/-- The two events relevant to C8: an explicit `disconnect()` call, and the
asynchronous close event fired on the socket. -/
inductive ProviderEvent
  | disconnectCall
  | wsCloseEvent

/-- Effect of the two events on the provider: `disconnect` nulls the `ws`
field (stopping tracks and processors is outside this model); the close
event, whenever the handler is attached, runs `attemptReconnect`
unconditionally, scheduling a reconnect timer or reporting the fatal
error. -/
def providerStep (st : ProviderConnState) : ProviderEvent → ProviderConnState
  | ProviderEvent.disconnectCall =>
      if st.wsField then { st with wsField := false } else st
  | ProviderEvent.wsCloseEvent =>
      if st.handlerAttached then
        let r := attemptReconnect st.reconnectAttempts
        { st with reconnectAttempts := r.1,
                  reconnectScheduled := st.reconnectScheduled || r.2.1.isSome,
                  fatalReported := st.fatalReported || r.2.2 }
      else st

/-- Provider state right after a successful `initialize`: socket attached
with its handlers, `ws` field set, counter reset by `onopen`, no timer. -/
def connectedProviderState : ProviderConnState :=
  ⟨true, true, 0, false, false⟩

/-- Folding a sequence of events through the provider. -/
def providerRun (st : ProviderConnState) (evs : List ProviderEvent) : ProviderConnState :=
  evs.foldl providerStep st

/-- C8: calling `disconnect()` on a connected provider and letting the
socket's close event fire leaves a reconnect timer scheduled — the
unconditional `onclose` handler calls `attemptReconnect` even after an
explicit disconnect, contradicting the claim that no reconnect attempt
ever follows it. -/
theorem C8_disconnect_schedules_reconnect :
    (providerRun connectedProviderState
        [ProviderEvent.disconnectCall, ProviderEvent.wsCloseEvent]).reconnectScheduled
      = true ∧
    connectedProviderState.reconnectScheduled = false := by
  constructor
  · decide
  · rfl

/-- Parsed shape of a backend message (`TranscriptEvent` interface, lines
6-13): type tag plus optional `text`, `isFinal` and `message` fields. -/
structure TranscriptEventMsg where
  type : String
  text : Option String
  isFinal : Option Bool
  message : Option String

/-- Observable effect of a message handler: which callback fires, with
which arguments. -/
inductive HandlerAction
  | transcriptCb (text : String) (isFinal : Bool)
  | errorCb (message : String)
  | noCallback
deriving DecidableEq

/-- `DeepgramProvider.handleMessage` (lines 377-405), on an already-parsed
message, assuming the transcript and error callbacks are registered.
JavaScript truthiness is modelled explicitly: an absent or empty `text`
suppresses the transcript callback (`message.text && ...`), `!!isFinal`
coerces an absent flag to `false`, and an absent or empty error `message`
falls back to the fixed string. -/
def handleMessage (msg : TranscriptEventMsg) : HandlerAction :=
  if msg.type = "connected" then HandlerAction.noCallback
  else if msg.type = "transcript" then
    match msg.text with
    | some t =>
        if t ≠ "" then HandlerAction.transcriptCb t (msg.isFinal.getD false)
        else HandlerAction.noCallback
    | none => HandlerAction.noCallback
  else if msg.type = "error" then
    match msg.message with
    | some m =>
        if m ≠ "" then HandlerAction.errorCb m
        else HandlerAction.errorCb "Service error occurred"
    | none => HandlerAction.errorCb "Service error occurred"
  else HandlerAction.noCallback

/-- AssemblyAI message shape (`AssemblyAITranscript`): the `message_type`
tag (spelled `messageType` here) plus optional transcript text and error
message. -/
structure AssemblyAIMsg where
  messageType : String
  transcript : Option String
  message : Option String

/-- `AssemblyAIProvider.handleMessage` (part_001 lines 276-316): interim
`Transcript` events forward with `isFinal = false` and `FinalTranscript`
events with `true`, each only when the transcript text is present and
non-empty (`message.transcript && ...`). -/
def handleMessageAssembly (msg : AssemblyAIMsg) : HandlerAction :=
  if msg.messageType = "SessionBegins" then HandlerAction.noCallback
  else if msg.messageType = "Transcript" then
    match msg.transcript with
    | some t => if t ≠ "" then HandlerAction.transcriptCb t false else HandlerAction.noCallback
    | none => HandlerAction.noCallback
  else if msg.messageType = "FinalTranscript" then
    match msg.transcript with
    | some t => if t ≠ "" then HandlerAction.transcriptCb t true else HandlerAction.noCallback
    | none => HandlerAction.noCallback
  else if msg.messageType = "SessionTerminated" then HandlerAction.noCallback
  else if msg.messageType = "Error" then
    match msg.message with
    | some m => if m ≠ "" then HandlerAction.errorCb m else HandlerAction.errorCb "AssemblyAI error"
    | none => HandlerAction.errorCb "AssemblyAI error"
  else HandlerAction.noCallback

/-- C9 counterexample: a well-formed transcript event with empty text and
`isFinal = true` is dropped by the handler — the sink is not invoked at
all, so transcript events are not forwarded verbatim in every case. -/
theorem C9_counterexample :
    handleMessage ⟨"transcript", some "", some true, none⟩ = HandlerAction.noCallback ∧
    handleMessage ⟨"transcript", some "", some true, none⟩
      ≠ HandlerAction.transcriptCb "" true := by
  constructor
  · decide
  · decide

/-- C9 (amended): a transcript event is forwarded verbatim to the sink —
same text, same flag, with an absent flag coerced to `false` — exactly when
its text is present and non-empty; events with absent or empty text invoke
no callback.  The AssemblyAI handler forwards non-empty interim and final
transcripts with the corresponding flag. -/
theorem C9_transcript_forwarding (t : String) (fin : Bool) (im : Option String)
    (ht : t ≠ "") :
    handleMessage ⟨"transcript", some t, some fin, im⟩
        = HandlerAction.transcriptCb t fin ∧
    handleMessage ⟨"transcript", some t, none, im⟩
        = HandlerAction.transcriptCb t false ∧
    handleMessage ⟨"transcript", some "", some fin, im⟩ = HandlerAction.noCallback ∧
    handleMessage ⟨"transcript", none, some fin, im⟩ = HandlerAction.noCallback ∧
    handleMessageAssembly ⟨"Transcript", some t, none⟩
        = HandlerAction.transcriptCb t false ∧
    handleMessageAssembly ⟨"FinalTranscript", some t, none⟩
        = HandlerAction.transcriptCb t true := by
  refine ⟨?_, ?_, ?_, ?_, ?_, ?_⟩ <;>
    simp [handleMessage, handleMessageAssembly, ht]

/-- C9 witness: the forwarding law instantiated on the text `"hello"` with
`isFinal = true`. -/
theorem C9_witness :
    handleMessage ⟨"transcript", some "hello", some true, none⟩
      = HandlerAction.transcriptCb "hello" true :=
  (C9_transcript_forwarding "hello" true none (by decide)).1
